import Mathlib

set_option autoImplicit false

namespace ProxyCare

/-!
Shallow embedding of the proxycare lease engine (EPguitars/proxycare).

Python dictionaries carrying proxy records are embedded as the structure
`ProxyPayload`; `Option` models absent keys.  Source-id keys of the in-memory
pool dictionary and of the connection registry are embedded as `List Char`
(Python strings), so that the comma splitting performed by the broadcast code
can be reasoned about structurally.  The third-party Fernet cipher of
`cryptography.fernet` is abstracted as a pair of string functions (`Cipher`);
every property that depends on the cipher itself is taken as a hypothesis
stating the documented Fernet contract.
-/

/-- Abstraction of `cryptography.fernet.Fernet` constructed with the key that
`get_encryption_key` derives from the shared secret (crypto.py lines 7-26):
`enc` is `Fernet.encrypt` followed by `.decode()`, `dec` is `Fernet.decrypt`.
The library guarantees (assumed as hypotheses where needed) that `dec` inverts
`enc` and that tokens are non-empty URL-safe base64 strings. -/
structure Cipher where
  enc : String → String
  dec : String → String

/-- One proxy record dictionary as it travels through the engine.  `proxy` is
the credential field (`none` models the key being absent, `some ""` an empty
string, which Python treats as falsy); `encFlag` models the `_encrypted` key
(`none` = key absent). -/
structure ProxyPayload where
  id : Int
  proxy : Option String
  sourceId : Option Int
  priority : Option Int
  usage_interval : Option Int
  encFlag : Option Bool
  deriving DecidableEq, Repr

/-- Embedding of `encrypt_proxy` (crypto.py lines 28-57).  An empty secret
returns the input dictionary unchanged; otherwise, when the `proxy` key is
present and non-empty, the credential is replaced by the ciphertext and
`_encrypted: true` is set.  The cipher is total here, so the Python
`except` fallback path (return the original on encryption error) does not
arise in the model. -/
def encrypt_proxy (f : Cipher) (proxy_data : ProxyPayload) (secret : String) : ProxyPayload :=
  if secret.isEmpty then proxy_data
  else
    match proxy_data.proxy with
    | some p =>
        if p.isEmpty then proxy_data
        else { proxy_data with proxy := some (f.enc p), encFlag := some true }
    | none => proxy_data

/-- Embedding of `decrypt_proxy` (crypto.py lines 59-92).  If the
`_encrypted` key is absent or falsy the input is returned unchanged;
otherwise the credential is decrypted (when present and non-empty) and the
`_encrypted` key is removed. -/
def decrypt_proxy (f : Cipher) (proxy_data : ProxyPayload) : ProxyPayload :=
  if proxy_data.encFlag.getD false = false then proxy_data
  else
    let d :=
      match proxy_data.proxy with
      | some p => if p.isEmpty then proxy_data else { proxy_data with proxy := some (f.dec p) }
      | none => proxy_data
    { d with encFlag := none }

/-- Characters of the URL-safe base64 alphabet used by `base64.urlsafe_b64encode`
(crypto.py line 25), padding included. -/
def isUrlSafeB64Char (c : Char) : Bool :=
  c.isAlphanum || c = '-' || c = '_' || c = '='

/-- A string is URL-safe-base64-decodable when it is non-empty, has length a
multiple of four, and draws all characters from the URL-safe alphabet. -/
def isUrlSafeB64 (s : String) : Bool :=
  !s.isEmpty && s.length % 4 == 0 && s.data.all isUrlSafeB64Char

/-- C7: for every credential string and every non-empty secret, decrypting the
encryption of a fresh record restores the record exactly (in particular the
credential), and whenever `encrypt_proxy` marks the output with
`_encrypted: true` the credential field carries the cipher's token, which is
URL-safe-base64-decodable.  The hypothesis `hciph` is the Fernet contract for
the record's credential. -/
theorem crypto_round_trip (f : Cipher) (d : ProxyPayload) (secret : String)
    (hsec : secret.isEmpty = false)
    (hfresh : d.encFlag = none)
    (hciph : ∀ p, d.proxy = some p →
      f.dec (f.enc p) = p ∧ (f.enc p).isEmpty = false ∧ isUrlSafeB64 (f.enc p) = true) :
    decrypt_proxy f (encrypt_proxy f d secret) = d ∧
      ((encrypt_proxy f d secret).encFlag = some true →
        ∃ p, d.proxy = some p ∧ (encrypt_proxy f d secret).proxy = some (f.enc p) ∧
          isUrlSafeB64 (f.enc p) = true) := by
  rcases d with ⟨i, pr, src, pri, itv, fl⟩
  cases fl with
  | some b => simp at hfresh
  | none =>
    cases pr with
    | none =>
        constructor
        · simp [encrypt_proxy, decrypt_proxy, hsec]
        · intro h
          simp [encrypt_proxy, hsec] at h
    | some p =>
        by_cases hp : p.isEmpty
        · constructor
          · simp [encrypt_proxy, decrypt_proxy, hsec, hp]
          · intro h
            simp [encrypt_proxy, hsec, hp] at h
        · obtain ⟨hinv, hne, hb64⟩ := hciph p rfl
          constructor
          · simp [encrypt_proxy, decrypt_proxy, hsec, hp, hne, hinv]
          · intro _
            exact ⟨p, rfl, by simp [encrypt_proxy, hsec, hp], hb64⟩

/-- Concrete cipher used to instantiate cipher-contract hypotheses in
witnesses: on the single credential exercised there it behaves like a correct
Fernet (constant token, constant plaintext). -/
def wCipher : Cipher :=
  ⟨fun _ => "YWJj", fun _ => "h:p:u:w"⟩

/-- Concrete fresh proxy record used in witnesses. -/
def wPayload : ProxyPayload :=
  { id := 7, proxy := some "h:p:u:w", sourceId := some 1, priority := some 50,
    usage_interval := some 30, encFlag := none }

theorem crypto_round_trip_witness :
    ("k" : String).isEmpty = false ∧
      decrypt_proxy wCipher (encrypt_proxy wCipher wPayload "k") = wPayload :=
  ⟨by decide,
   (crypto_round_trip wCipher wPayload "k" (by decide) rfl
      (by
        intro p hp
        have hp' : p = "h:p:u:w" := by
          simpa [wPayload] using hp.symm
        subst hp'
        exact ⟨rfl, by decide, by decide⟩)).1⟩

/-- Source keys of the pool dictionary and subscription keys of the
connection registry are Python strings, embedded as lists of characters. -/
abbrev Key := List Char

/-- The in-memory pool dictionary `proxy_pools` (ws_proxy.py line 20), an
insertion-ordered association list from source key to pool contents. -/
abbrev Pools := List (Key × List ProxyPayload)

/-- Python `str(...)` applied to the optional `sourceId` field, as in
`str(proxy.get("sourceId"))` (ws_proxy.py line 159). -/
def pyStrOfOptInt : Option Int → Key
  | none => "None".data
  | some n => (toString n).data

/-- Dictionary read `proxy_pools.get(sid)`. -/
def poolsGet (pools : Pools) (sid : Key) : Option (List ProxyPayload) :=
  (pools.find? (fun e => e.1 == sid)).map Prod.snd

/-- Overwrite of one pool's contents after a `popleft`. -/
def poolsSet (pools : Pools) (sid : Key) (v : List ProxyPayload) : Pools :=
  pools.map (fun e => if e.1 == sid then (e.1, v) else e)

/-- Outbound frames a dispatch tick can emit (ws_proxy.py lines 326-343). -/
inductive Frame
  | proxyAvailable (source_id : Key) (record : ProxyPayload) (key : Key) (usage_interval : Int)
  | waiting (key : Key)
  deriving DecidableEq, Repr

/-- One dispatch tick of `multi_source_proxy_provider` (ws_proxy.py lines
310-344): scan the subscription's source list left to right, pop the head of
the first non-empty pool, encrypt it with the configured secret and send one
`proxy_available` frame, breaking out of the loop; if no pool is non-empty
(the for-else branch), send one `waiting` frame.  The pending cool-down
return scheduled by `call_later` is modelled separately (`poolAppend`). -/
def dispatch_tick (f : Cipher) (secret : String) (key : Key) :
    Pools → List Key → List Frame × Pools
  | pools, [] => ([Frame.waiting key], pools)
  | pools, sid :: rest =>
      match poolsGet pools sid with
      | some (p :: ps) =>
          ([Frame.proxyAvailable sid (encrypt_proxy f p secret) key (p.usage_interval.getD 30)],
           poolsSet pools sid ps)
      | _ => dispatch_tick f secret key pools rest

/-- The first source of the subscription list whose pool exists and is
non-empty. -/
def firstNonEmptySource : Pools → List Key → Option Key
  | _, [] => none
  | pools, sid :: rest =>
      match poolsGet pools sid with
      | some (_ :: _) => some sid
      | _ => firstNonEmptySource pools rest

/-- The source of the `proxy_available` frame emitted by a tick, if any. -/
def dispatchedSource : List Frame → Option Key
  | Frame.proxyAvailable sid _ _ _ :: _ => some sid
  | _ => none

/-- Bool test for a `proxy_available` frame. -/
def isProxyAvailable : Frame → Bool
  | Frame.proxyAvailable _ _ _ _ => true
  | _ => false

/-- The rotation property asserted by claim C3: if a tick leases from source
`sid` while some other subscribed source still has a non-empty pool
afterwards, round-robin rotation forbids the immediately following tick from
leasing from `sid` again. -/
def DispatchRotatesRoundRobin : Prop :=
  ∀ (f : Cipher) (secret : String) (key : Key) (pools : Pools) (ids : List Key) (sid : Key),
    dispatchedSource (dispatch_tick f secret key pools ids).1 = some sid →
    (∃ sid2 p ps, sid2 ∈ ids ∧ sid2 ≠ sid ∧
      poolsGet (dispatch_tick f secret key pools ids).2 sid2 = some (p :: ps)) →
    dispatchedSource
      (dispatch_tick f secret key (dispatch_tick f secret key pools ids).2 ids).1 ≠ some sid

/-- Concrete records for counterexamples and witnesses. -/
def paA : ProxyPayload :=
  { id := 1, proxy := some "a:1", sourceId := some 1, priority := some 10,
    usage_interval := some 30, encFlag := none }

def paB : ProxyPayload :=
  { id := 2, proxy := some "b:2", sourceId := some 1, priority := some 20,
    usage_interval := some 30, encFlag := none }

def paC : ProxyPayload :=
  { id := 3, proxy := some "c:3", sourceId := some 2, priority := some 30,
    usage_interval := some 30, encFlag := none }

def cPools : Pools := [(['1'], [paA, paB]), (['2'], [paC])]

def cIds : List Key := [['1'], ['2']]

def cKey : Key := ['1', ',', '2']

/-- C3 counterexample: with pools 1 = [paA, paB] and 2 = [paC] and the
subscription [1, 2], two successive ticks both lease from source 1 even
though source 2's pool stays non-empty: the unused rotation index `idx`
(ws_proxy.py line 301) means every tick restarts from the leftmost source,
so the code does not rotate round-robin. -/
theorem dispatch_no_rotation_counterexample : ¬ DispatchRotatesRoundRobin := by
  intro h
  exact h wCipher "" cKey cPools cIds ['1'] (by decide)
    ⟨['2'], paC, [], by decide, by decide, by decide⟩ (by decide)

/-- C3 amended: each dispatch tick emits exactly one frame, hence at most one
`proxy_available`; if no subscribed pool is non-empty the frame is `waiting`
and the pools are untouched, and otherwise the lease is popped from the
first source in subscription order whose pool is non-empty — each tick
restarts the scan from the leftmost source, with no rotation state carried
between ticks. -/
theorem dispatch_tick_first_nonempty (f : Cipher) (secret : String) (key : Key)
    (pools : Pools) (ids : List Key) :
    ((dispatch_tick f secret key pools ids).1.countP isProxyAvailable ≤ 1) ∧
    (firstNonEmptySource pools ids = none →
        dispatch_tick f secret key pools ids = ([Frame.waiting key], pools)) ∧
    (∀ sid, firstNonEmptySource pools ids = some sid →
        ∃ p ps, poolsGet pools sid = some (p :: ps) ∧
          dispatch_tick f secret key pools ids =
            ([Frame.proxyAvailable sid (encrypt_proxy f p secret) key
                (p.usage_interval.getD 30)],
             poolsSet pools sid ps)) := by
  induction ids with
  | nil =>
      refine ⟨by simp [dispatch_tick, List.countP, List.countP.go, isProxyAvailable], fun _ => rfl, ?_⟩
      intro sid h
      simp [firstNonEmptySource] at h
  | cons sid rest ih =>
      cases hpg : poolsGet pools sid with
      | some l =>
          cases l with
          | cons p ps =>
              refine ⟨?_, ?_, ?_⟩
              · simp [dispatch_tick, hpg, List.countP, List.countP.go, isProxyAvailable]
              · intro h
                simp [firstNonEmptySource, hpg] at h
              · intro sid0 h
                simp only [firstNonEmptySource, hpg] at h
                cases h
                exact ⟨p, ps, hpg, by simp [dispatch_tick, hpg]⟩
          | nil =>
              refine ⟨?_, ?_, ?_⟩
              · simpa [dispatch_tick, hpg] using ih.1
              · intro h
                simp only [firstNonEmptySource, hpg] at h
                simpa [dispatch_tick, hpg] using ih.2.1 h
              · intro sid0 h
                simp only [firstNonEmptySource, hpg] at h
                simpa [dispatch_tick, hpg] using ih.2.2 sid0 h
      | none =>
          refine ⟨?_, ?_, ?_⟩
          · simpa [dispatch_tick, hpg] using ih.1
          · intro h
            simp only [firstNonEmptySource, hpg] at h
            simpa [dispatch_tick, hpg] using ih.2.1 h
          · intro sid0 h
            simp only [firstNonEmptySource, hpg] at h
            simpa [dispatch_tick, hpg] using ih.2.2 sid0 h

theorem dispatch_tick_first_nonempty_witness :
    firstNonEmptySource cPools cIds = some ['1'] ∧
      dispatch_tick wCipher "" cKey cPools cIds =
        ([Frame.proxyAvailable ['1'] paA cKey 30], poolsSet cPools ['1'] [paB]) := by
  refine ⟨by decide, ?_⟩
  obtain ⟨p, ps, hpg, heq⟩ :=
    (dispatch_tick_first_nonempty wCipher "" cKey cPools cIds).2.2 ['1'] (by decide)
  have h2 : poolsGet cPools ['1'] = some [paA, paB] := by decide
  rw [hpg] at h2
  obtain ⟨hp, hps⟩ := List.cons.injEq .. ▸ Option.some.inj h2
  subst hp; subst hps
  simpa [encrypt_proxy, paA] using heq

/-- Embedding of the unconditional pool append performed both by the ad-hoc
add endpoint `add_proxy_to_pool` (routes.py line 71,
`proxy_pools[source_id].append(proxy_data)`) and by the cool-down timer
closure (ws_proxy.py lines 335-338, `lambda p=proxy, s=sid:
proxy_pools[s].append(p)`): no duplicate filtering of any kind. -/
def poolAppend (pool : List ProxyPayload) (r : ProxyPayload) : List ProxyPayload :=
  pool ++ [r]

/-- The spec invariant on a single pool: pairwise distinct record ids. -/
@[reducible] def hasNoDupIds (pool : List ProxyPayload) : Prop :=
  (pool.map (fun p => p.id)).Nodup

/-- First-occurrence deduplication of keys, matching Python dict key order. -/
def orderedKeys : List Key → List Key
  | [] => []
  | k :: rest => k :: (orderedKeys rest).filter (fun x => x != k)

/-- Embedding of `initialize_proxy_pools` (ws_proxy.py lines 150-165): group
the cached `proxies:all` snapshot by `str(proxy.get("sourceId"))` with stable
`defaultdict` grouping, keys in first-appearance order. -/
def init_proxy_pools (allProxies : List ProxyPayload) : Pools :=
  (orderedKeys (allProxies.map (fun p => pyStrOfOptInt p.sourceId))).map
    (fun k => (k, allProxies.filter (fun p => pyStrOfOptInt p.sourceId == k)))

/-- One row of the `proxies` table (models/models.py lines 49-61); nullable
columns are `Option`. -/
structure DbRow where
  id : Int
  proxy : String
  sourceid : Option Int
  priority : Option Int
  blocked : Option Bool
  usage_interval : Option Int
  deriving DecidableEq, Repr

/-- Conversion of a database row to the cached payload dictionary written by
`load_proxies_for_sources` (ws_proxy.py lines 484-495); it carries the
`usage_interval` key and no `_encrypted` key. -/
def rowToPayload (r : DbRow) : ProxyPayload :=
  { id := r.id, proxy := some r.proxy, sourceId := r.sourceid, priority := r.priority,
    usage_interval := r.usage_interval, encFlag := none }

/-- The SQLAlchemy filter `Proxy.sourceid == source_id` of
`load_proxies_for_sources` (ws_proxy.py line 470), with the client-supplied
string key compared against the integer column through its decimal
rendering. -/
def sourceidMatches (sid : Key) (r : DbRow) : Bool :=
  match r.sourceid with
  | some n => (toString n).data == sid
  | none => false

/-- Embedding of the pool rebuild in `load_proxies_for_sources` (ws_proxy.py
lines 476-519): the cache key is deleted and rewritten from the database rows
for the source, the pool is cleared, and the cached rows are appended in
order, so the rebuilt pool is exactly the converted rows. -/
def load_proxies_for_sources_pool (dbRows : List DbRow) (sid : Key) : List ProxyPayload :=
  (dbRows.filter (sourceidMatches sid)).map rowToPayload

/-- C2 amended, positive part: startup initialization and the cache/store
refill yield duplicate-free pools whenever the underlying records have
pairwise distinct ids, because both rebuild each pool from scratch by
filtering an id-distinct snapshot. -/
theorem rebuild_pools_nodup (allProxies : List ProxyPayload) (dbRows : List DbRow)
    (hcache : (allProxies.map (fun p => p.id)).Nodup)
    (hdb : (dbRows.map DbRow.id).Nodup) :
    (∀ k pool, (k, pool) ∈ init_proxy_pools allProxies → hasNoDupIds pool) ∧
    (∀ sid, hasNoDupIds (load_proxies_for_sources_pool dbRows sid)) := by
  constructor
  · intro k pool hmem
    simp only [init_proxy_pools, List.mem_map] at hmem
    obtain ⟨k0, _, hk⟩ := hmem
    have hpool : pool = allProxies.filter (fun p => pyStrOfOptInt p.sourceId == k) := by
      have h1 := congrArg Prod.fst hk
      have h2 := congrArg Prod.snd hk
      simp at h1 h2
      rw [← h2, h1]
    subst hpool
    exact hcache.sublist ((List.filter_sublist _).map _)
  · intro sid
    have : (load_proxies_for_sources_pool dbRows sid).map (fun p => p.id) =
        (dbRows.filter (sourceidMatches sid)).map DbRow.id := by
      simp [load_proxies_for_sources_pool, Function.comp, rowToPayload]
    unfold hasNoDupIds
    rw [this]
    exact hdb.sublist ((List.filter_sublist _).map _)

/-- Row used in the C2 witness. -/
def rowA : DbRow :=
  { id := 1, proxy := "a:1", sourceid := some 1, priority := some 10,
    blocked := some false, usage_interval := some 30 }

theorem rebuild_pools_nodup_witness :
    ([paA, paC].map (fun p => p.id)).Nodup ∧
      hasNoDupIds (load_proxies_for_sources_pool [rowA] ['1']) :=
  ⟨by decide, (rebuild_pools_nodup [paA, paC] [rowA] (by decide) (by decide)).2 ['1']⟩

/-- C2 counterexample: the ad-hoc add endpoint (and equally the cool-down
timer return) appends a record whose id is already present, producing a pool
with a duplicate id, so these operations do not preserve the invariant. -/
theorem pool_append_duplicate_counterexample :
    hasNoDupIds [paA] ∧ ¬ hasNoDupIds (poolAppend [paA] paA) := by
  constructor
  · decide
  · intro h
    exact absurd h (by decide)

/-- C10: with the shared secret absent or empty
(`os.environ.get("SECRET", "")`, ws_proxy.py line 323), `encrypt_proxy`
returns every record completely unchanged — the credential stays plaintext
and no `_encrypted` flag is added — and consequently the record inside any
`proxy_available` frame of a dispatch tick is exactly the raw pool record,
sent in the clear with no marker. -/
theorem encrypt_noop_empty_secret (env : Option String)
    (henv : env = none ∨ env = some "") :
    (∀ f d, encrypt_proxy f d (env.getD "") = d) ∧
    (∀ (f : Cipher) (key : Key) (pools : Pools) (ids : List Key) sid r k itv,
      (dispatch_tick f (env.getD "") key pools ids).1 =
          [Frame.proxyAvailable sid r k itv] →
      ∃ ps, poolsGet pools sid = some (r :: ps)) := by
  have hsec : (env.getD "") = "" := by rcases henv with h | h <;> simp [h]
  have hid : ∀ (f : Cipher) (d : ProxyPayload), encrypt_proxy f d (env.getD "") = d := by
    intro f d
    rw [hsec]
    have he : ("" : String).isEmpty = true := rfl
    simp [encrypt_proxy, he]
  refine ⟨hid, ?_⟩
  intro f key pools ids
  induction ids with
  | nil =>
      intro sid r k itv h
      simp [dispatch_tick] at h
  | cons sid0 rest ih =>
      intro sid r k itv h
      cases hpg : poolsGet pools sid0 with
      | some l =>
          cases l with
          | cons p ps =>
              simp only [dispatch_tick, hpg] at h
              have h1 := List.cons.injEq .. ▸ h
              obtain ⟨hfr, -⟩ := h1
              have h2 := Frame.proxyAvailable.injEq .. ▸ hfr
              obtain ⟨hsid, hr, -, -⟩ := h2
              subst hsid
              refine ⟨ps, ?_⟩
              rw [hpg, ← hr, hid f p]
          | nil =>
              simp only [dispatch_tick, hpg] at h
              exact ih _ _ _ _ h
      | none =>
          simp only [dispatch_tick, hpg] at h
          exact ih _ _ _ _ h

theorem encrypt_noop_empty_secret_witness :
    ((none : Option String) = none ∨ (none : Option String) = some "") ∧
      encrypt_proxy wCipher paA ((none : Option String).getD "") = paA :=
  ⟨Or.inl rfl, (encrypt_noop_empty_secret none (Or.inl rfl)).1 wCipher paA⟩

/-- Python `key.split(",")` on an embedded string: `""` splits to `[""]`,
`"a,b"` to `["a","b"]`, `"a,"` to `["a",""]`. -/
def splitOnComma : List Char → List (List Char)
  | [] => [[]]
  | c :: rest =>
      if c = ',' then [] :: splitOnComma rest
      else
        match splitOnComma rest with
        | [] => [[c]]
        | h :: t => (c :: h) :: t

theorem splitOnComma_no_comma (s : List Char) (h : ',' ∉ s) : splitOnComma s = [s] := by
  induction s with
  | nil => rfl
  | cons c rest ih =>
      have hc : ¬ c = ',' := fun hc => h (hc ▸ List.mem_cons_self c rest)
      have hr : ',' ∉ rest := fun hm => h (List.mem_cons_of_mem _ hm)
      simp [splitOnComma, hc, ih hr]

/-- Python truthiness of the `proxy_source` variable: `None` and the empty
string are falsy. -/
def truthy : Option Key → Bool
  | none => false
  | some s => !s.isEmpty

/-- The pool scan of the `proxy_taken` branch (ws_proxy.py lines 224-231):
iterate the pool dictionary in insertion order; whenever a pool contains the
reported id, record its key, and break out of the outer loop as soon as the
recorded key is truthy. -/
def findProxySource : Pools → Option Key → Int → Option Key
  | [], acc, _ => acc
  | (src, pool) :: rest, acc, pid =>
      let acc2 := if pool.any (fun p => p.id == pid) then some src else acc
      if truthy acc2 then acc2 else findProxySource rest acc2 pid

/-- The `proxy_in_use` message broadcast to peers (ws_proxy.py lines 237-242
and 249-254). -/
structure InUseMsg where
  action : String
  proxy_id : Int
  usage_interval : Int
  key : Key
  deriving DecidableEq, Repr

def mkInUseMsg (pid itv : Int) (k : Key) : InUseMsg :=
  { action := "proxy_in_use", proxy_id := pid, usage_interval := itv, key := k }

/-- The connection registry `manager.active_connections` (ws_proxy.py line
43): subscription key to list of live session handles, sessions modelled by
numeric ids. -/
abbrev Registry := List (Key × List Nat)

/-- Embedding of the `proxy_taken` branch of `handle_incoming` (ws_proxy.py
lines 217-254).  The proxy's source is looked up by scanning the pools; if no
truthy key is found, nothing is sent.  Otherwise the first loop sends to
every connection registered under the key equal to the source (except the
sender), and the second loop sends to every connection registered under a
comma-containing key whose split contains the source (except the sender). -/
def proxy_taken_emits (pools : Pools) (reg : Registry) (sender : Nat) (pid itv : Int) :
    List (Nat × InUseMsg) :=
  match findProxySource pools none pid with
  | none => []
  | some s =>
      if s.isEmpty then []
      else
        let loop1 := ((((reg.find? (fun e => e.1 == s)).map Prod.snd).getD []).filter
            (fun c => c != sender)).map (fun c => (c, mkInUseMsg pid itv s))
        let loop2 := reg.flatMap (fun e =>
            if e.1.contains ',' && (splitOnComma e.1).contains s then
              (e.2.filter (fun c => c != sender)).map (fun c => (c, mkInUseMsg pid itv e.1))
            else [])
        loop1 ++ loop2

theorem findProxySource_eq (pools : Pools) (pid : Int) (S : Key)
    (hSne : S ≠ [])
    (hmem : ∃ pl, (S, pl) ∈ pools ∧ pl.any (fun p => p.id == pid))
    (huniq : ∀ k pl, (k, pl) ∈ pools → pl.any (fun p => p.id == pid) → k = S) :
    findProxySource pools none pid = some S := by
  induction pools with
  | nil =>
      obtain ⟨pl, h, _⟩ := hmem
      simp at h
  | cons e rest ih =>
      obtain ⟨src, pool⟩ := e
      by_cases hp : pool.any (fun p => p.id == pid)
      · have hsrc : src = S := huniq src pool (List.mem_cons_self _ _) hp
        subst hsrc
        have ht : truthy (some src) = true := by
          simp only [truthy, Bool.not_eq_true']
          cases hn : src with
          | nil => exact absurd hn hSne
          | cons a t => rfl
        simp [findProxySource, hp, ht]
      · obtain ⟨pl, hplmem, hplany⟩ := hmem
        rcases List.mem_cons.mp hplmem with hh | ht2
        · exfalso
          have : pl = pool := congrArg Prod.snd hh
          exact hp (this ▸ hplany)
        · have step : findProxySource ((src, pool) :: rest) none pid =
              findProxySource rest none pid := by
            simp [findProxySource, hp, truthy]
          rw [step]
          exact ih ⟨pl, ht2, hplany⟩
            (fun k pl2 hm ha => huniq k pl2 (List.mem_cons_of_mem _ hm) ha)

theorem find_entry_of_nodup (reg : Registry) (e : Key × List Nat)
    (hnd : (reg.map Prod.fst).Nodup) (hmem : e ∈ reg) :
    reg.find? (fun x => x.1 == e.1) = some e := by
  induction reg with
  | nil => simp at hmem
  | cons a rest ih =>
      rcases List.mem_cons.mp hmem with h | h
      · subst h
        simp [List.find?]
      · have ha : ¬ ((fun x : Key × List Nat => x.1 == e.1) a = true) := by
          intro hk
          have hk2 : a.1 = e.1 := by simpa using hk
          have hin : e.1 ∈ rest.map Prod.fst := List.mem_map_of_mem Prod.fst h
          rw [← hk2] at hin
          exact (List.nodup_cons.mp (by simpa using hnd)).1 hin
        rw [List.find?_cons_of_neg rest ha]
        exact ih (List.nodup_cons.mp (by simpa using hnd)).2 h

/-- C1 amended: when the reported id lies in exactly one pool, that of source
`S` (a non-empty, comma-free key), the `proxy_in_use` frame is delivered
exactly to the registered sessions other than the sender whose subscription
key comma-splits to a list containing `S`, carrying that key, and to no one
else. -/
theorem proxy_taken_broadcast_exact
    (pools : Pools) (reg : Registry) (sender : Nat) (pid itv : Int) (S : Key)
    (hSne : S ≠ []) (hScomma : ',' ∉ S)
    (hmem : ∃ pl, (S, pl) ∈ pools ∧ pl.any (fun p => p.id == pid))
    (huniq : ∀ k pl, (k, pl) ∈ pools → pl.any (fun p => p.id == pid) → k = S)
    (hkeys : (reg.map Prod.fst).Nodup) :
    ∀ c m, (c, m) ∈ proxy_taken_emits pools reg sender pid itv ↔
      (c ≠ sender ∧ ∃ e, e ∈ reg ∧ c ∈ e.2 ∧ S ∈ splitOnComma e.1 ∧
        m = mkInUseMsg pid itv e.1) := by
  intro c m
  have hfind := findProxySource_eq pools pid S hSne hmem huniq
  have hSe : S.isEmpty = false := by
    cases S with
    | nil => exact absurd rfl hSne
    | cons a t => rfl
  unfold proxy_taken_emits
  rw [hfind]
  simp only [hSe, Bool.false_eq_true, if_false]
  rw [List.mem_append]
  constructor
  · rintro (h1 | h2)
    · simp only [List.mem_map, List.mem_filter] at h1
      obtain ⟨c0, ⟨hc0, hcs⟩, hcm⟩ := h1
      obtain ⟨hc, hm⟩ : c0 = c ∧ mkInUseMsg pid itv S = m := by
        constructor
        · exact congrArg Prod.fst hcm
        · exact congrArg Prod.snd hcm
      subst hc
      cases hf : reg.find? (fun x => x.1 == S) with
      | none =>
          rw [hf] at hc0
          exact absurd hc0 (by simp)
      | some e =>
          rw [hf] at hc0
          simp only [Option.map_some', Option.getD_some] at hc0
          have hkey : e.1 = S := by
            have := List.find?_some hf
            simpa using this
          have hereg : e ∈ reg := List.mem_of_find?_eq_some hf
          refine ⟨by simpa using hcs, e, hereg, hc0, ?_, ?_⟩
          · rw [hkey, splitOnComma_no_comma S hScomma]
            exact List.mem_singleton_self S
          · rw [← hm, hkey]
    · simp only [List.mem_flatMap] at h2
      obtain ⟨e, hereg, hce⟩ := h2
      by_cases hcond : (e.1.contains ',' && (splitOnComma e.1).contains S) = true
      · rw [if_pos hcond] at hce
        simp only [List.mem_map, List.mem_filter] at hce
        obtain ⟨c0, ⟨hc0, hcs⟩, hcm⟩ := hce
        obtain ⟨hc, hm⟩ : c0 = c ∧ mkInUseMsg pid itv e.1 = m :=
          ⟨congrArg Prod.fst hcm, congrArg Prod.snd hcm⟩
        subst hc
        have hsplit : S ∈ splitOnComma e.1 := by
          have := (Bool.and_eq_true ..).mp hcond |>.2
          simpa using this
        exact ⟨by simpa using hcs, e, hereg, hc0, hsplit, hm.symm⟩
      · rw [if_neg hcond] at hce
        simp at hce
  · rintro ⟨hcs, e, hereg, hce, hsplit, hm⟩
    by_cases hcomma : e.1.contains ',' = true
    · right
      simp only [List.mem_flatMap]
      refine ⟨e, hereg, ?_⟩
      have hcont : (splitOnComma e.1).contains S = true := by simpa using hsplit
      rw [if_pos (by rw [hcomma, hcont]; rfl)]
      simp only [List.mem_map, List.mem_filter]
      exact ⟨c, ⟨hce, by simpa using hcs⟩, by rw [hm]⟩
    · left
      have hnc : ',' ∉ e.1 := by simpa using hcomma
      have hkey : e.1 = S := by
        rw [splitOnComma_no_comma e.1 hnc] at hsplit
        exact (List.mem_singleton.mp hsplit).symm
      have hf : reg.find? (fun x => x.1 == S) = some e := by
        rw [← hkey]
        exact find_entry_of_nodup reg e hkeys hereg
      simp only [List.mem_map, List.mem_filter, hf, Option.map_some, Option.getD_some]
      exact ⟨c, ⟨hce, by simpa using hcs⟩, by rw [hm, hkey]⟩

/-- Pools and registry for the C1 witness: the reported proxy (id 1) sits in
the pool of source key 1; sessions 1 and 2 subscribe to key 1, session 3 to
key 1,2 and session 4 to key 3; the reporter is session 1. -/
def wPoolsC1 : Pools := [(['1'], [paA])]

def wRegC1 : Registry := [(['1'], [1, 2]), (cKey, [3]), (['3'], [4])]

theorem proxy_taken_broadcast_exact_witness :
    (['1'] : Key) ≠ [] ∧
      ((3, mkInUseMsg 1 30 cKey) ∈ proxy_taken_emits wPoolsC1 wRegC1 1 1 30 ↔
        (3 ≠ 1 ∧ ∃ e, e ∈ wRegC1 ∧ 3 ∈ e.2 ∧ ['1'] ∈ splitOnComma e.1 ∧
          mkInUseMsg 1 30 cKey = mkInUseMsg 1 30 e.1)) :=
  ⟨by decide,
   proxy_taken_broadcast_exact wPoolsC1 wRegC1 1 1 30 ['1'] (by decide) (by decide)
     ⟨[paA], by decide, by decide⟩
     (by
       intro k pl hm ha
       have h := List.mem_singleton.mp hm
       exact congrArg Prod.fst h)
     (by decide) 3 (mkInUseMsg 1 30 cKey)⟩

/-- The property asserted by claim C1, with the source of the reported proxy
read off the record's own `sourceId` attribute: every registered session
other than the sender whose subscription key contains that source receives
some `proxy_in_use` message. -/
def ProxyTakenReachesSubscribers : Prop :=
  ∀ (pools : Pools) (reg : Registry) (sender : Nat) (r : ProxyPayload) (itv : Int)
    (e : Key × List Nat) (c : Nat),
    e ∈ reg → c ∈ e.2 → c ≠ sender → pyStrOfOptInt r.sourceId ∈ splitOnComma e.1 →
    ∃ m, (c, m) ∈ proxy_taken_emits pools reg sender r.id itv

/-- C1 counterexample: record paA of source 1 is leased out, so it sits in no
pool (the pool of source key 1 exists but is empty); session 2 subscribes to
source key 1 and is not the sender, yet the pool scan finds no source and the
engine broadcasts nothing at all. -/
theorem proxy_taken_leased_counterexample : ¬ ProxyTakenReachesSubscribers := by
  intro h
  obtain ⟨m, hm⟩ := h [(['1'], [])] [(['1'], [2])] 1 paA 30 (['1'], [2]) 2
    (by decide) (by decide) (by decide) (by decide)
  have hempty : proxy_taken_emits [(['1'], [])] [(['1'], [2])] 1 paA.id 30 = [] := by decide
  rw [hempty] at hm
  simp at hm

/-- The WHERE clause of `get_proxies_from_db` (scheduler.py lines 105-109):
`blocked = False AND sourceId = {source_id}` (SQL NULL never matches). -/
def unblockedForSource (src : Int) (r : DbRow) : Bool :=
  r.blocked == some false && r.sourceid == some src

/-- SQL `ORDER BY priority DESC` comparison on the nullable column; Postgres
sorts NULL first in a descending order. -/
def priGEb : Option Int → Option Int → Bool
  | none, _ => true
  | some _, none => false
  | some a, some b => b ≤ a

/-- The set of result lists the SQL of `get_proxies_from_db` (scheduler.py
lines 104-142) may return for a fixed table state: a priority-descending
ordering of the matching rows, truncated to the limit.  The query has no
secondary ORDER BY key, so the relative order of equal-priority rows is not
determined by SQL semantics. -/
def get_proxies_from_db_results (table : List DbRow) (src : Int) (limit : Nat)
    (res : List DbRow) : Prop :=
  ∃ perm : List DbRow, (table.filter (unblockedForSource src)).Perm perm ∧
    perm.Pairwise (fun a b => priGEb a.priority b.priority = true) ∧
    res = perm.take limit

/-- The ordering asserted by claim C4: priority descending with ties broken
by id ascending. -/
@[reducible] def claimC4Order (l : List DbRow) : Prop :=
  l.Pairwise (fun a b => priGEb a.priority b.priority = true ∧
    (a.priority = b.priority → a.id ≤ b.id))

/-- C4 amended: every list the fetch can return has at most `limit` rows, all
with `blocked = false` and the requested source, sorted by priority
descending; the SQL carries no id tie-break, so equal-priority rows may come
back in any order and the result is not determined by the table state. -/
theorem get_proxies_from_db_sound (table : List DbRow) (src : Int) (limit : Nat)
    (res : List DbRow) (h : get_proxies_from_db_results table src limit res) :
    res.length ≤ limit ∧
      (∀ r ∈ res, r.blocked = some false ∧ r.sourceid = some src) ∧
      res.Pairwise (fun a b => priGEb a.priority b.priority = true) := by
  obtain ⟨perm, hperm, hsort, hres⟩ := h
  subst hres
  refine ⟨?_, ?_, ?_⟩
  · simp [List.length_take_le]
  · intro r hr
    have hr2 : r ∈ perm := List.take_subset limit perm hr
    have hr3 : r ∈ table.filter (unblockedForSource src) := hperm.symm.subset hr2
    have hu := List.of_mem_filter hr3
    simp only [unblockedForSource, Bool.and_eq_true, beq_iff_eq] at hu
    exact hu
  · exact hsort.sublist (List.take_sublist limit perm)

/-- Two equal-priority unblocked rows of source 1 for the C4 counterexample
and witness. -/
def rowT1 : DbRow :=
  { id := 1, proxy := "a:1", sourceid := some 1, priority := some 5,
    blocked := some false, usage_interval := some 30 }

def rowT2 : DbRow :=
  { id := 2, proxy := "b:2", sourceid := some 1, priority := some 5,
    blocked := some false, usage_interval := some 30 }

/-- C4 counterexample: with two rows of equal priority the SQL may return
them in either order; in particular the id-descending result is permitted,
so the fetch neither breaks ties by ascending id nor is deterministic. -/
theorem get_proxies_from_db_tie_counterexample :
    get_proxies_from_db_results [rowT1, rowT2] 1 2 [rowT2, rowT1] ∧
      get_proxies_from_db_results [rowT1, rowT2] 1 2 [rowT1, rowT2] ∧
      ([rowT2, rowT1] : List DbRow) ≠ [rowT1, rowT2] ∧
      ¬ claimC4Order [rowT2, rowT1] := by
  have hfil : [rowT1, rowT2].filter (unblockedForSource 1) = [rowT1, rowT2] := by decide
  refine ⟨⟨[rowT2, rowT1], ?_, by decide, rfl⟩,
    ⟨[rowT1, rowT2], by rw [hfil], by decide, rfl⟩, by decide, by decide⟩
  rw [hfil]
  exact List.Perm.swap rowT2 rowT1 []

theorem get_proxies_from_db_sound_witness :
    get_proxies_from_db_results [rowT1, rowT2] 1 1 [rowT1] ∧
      ([rowT1] : List DbRow).length ≤ 1 ∧
      (∀ r ∈ ([rowT1] : List DbRow), r.blocked = some false ∧ r.sourceid = some 1) ∧
      ([rowT1] : List DbRow).Pairwise (fun a b => priGEb a.priority b.priority = true) := by
  have h : get_proxies_from_db_results [rowT1, rowT2] 1 1 [rowT1] := by
    refine ⟨[rowT1, rowT2], ?_, by decide, rfl⟩
    rw [show [rowT1, rowT2].filter (unblockedForSource 1) = [rowT1, rowT2] from by decide]
  exact ⟨h, get_proxies_from_db_sound [rowT1, rowT2] 1 1 [rowT1] h⟩

/-- Python exceptions relevant to the endpoint: FastAPI's `HTTPException`
versus any other `Exception`. -/
inductive PyExc
  | http (detail : String)
  | generic (msg : String)
  deriving DecidableEq, Repr

/-- Embedding of `check_websocket_token` (ws_proxy.py lines 23-35): compare
the query token against `os.environ.get("SECRET")` and raise a plain
`Exception("Invalid token")` — not an HTTPException — on mismatch (a missing
environment secret never equals a string token, so it always mismatches). -/
def check_websocket_token (token : String) (envSecret : Option String) :
    Except PyExc String :=
  if envSecret == some token then Except.ok token
  else Except.error (PyExc.generic "Invalid token")

/-- Observable application events during WebSocket connection setup. -/
inductive AppEvent
  | accepted
  | sentError (message : String)
  | closed (code : Nat)
  | attached (key : Key)
  deriving DecidableEq, Repr

/-- The initial start frame `{"action": ..., "source_ids": ...}`;
`source_ids = none` models the field missing or not a list. -/
structure StartMsg where
  action : Option String
  source_ids : Option (List Key)
  deriving DecidableEq, Repr

/-- Python `",".join(source_ids)` (ws_proxy.py line 289). -/
def joinComma : List Key → Key
  | [] => []
  | [s] => s
  | s :: rest => s ++ ',' :: joinComma rest

/-- Embedding of the connection-setup phase of `websocket_proxy_multi`
(ws_proxy.py lines 532-559).  FastAPI resolves the `Depends` token check
before the endpoint body runs; when the dependency raises, the body —
including the `except HTTPException` branch (lines 553-557) that would send
an error frame and close with code 1008 — is never entered, so the
application emits nothing.  On success the body accepts, validates the start
frame, closing 1008 on a malformed one, and otherwise attaches the session
to the registry under the joined key. -/
def websocket_proxy_multi_setup (token : String) (envSecret : Option String)
    (m : StartMsg) : List AppEvent :=
  match check_websocket_token token envSecret with
  | Except.error _ => []
  | Except.ok _ =>
      AppEvent.accepted ::
        (if m.action == some "start" then
          match m.source_ids with
          | some ids => [AppEvent.attached (joinComma ids)]
          | none => [AppEvent.sentError "Invalid start message", AppEvent.closed 1008]
        else [AppEvent.sentError "Invalid start message", AppEvent.closed 1008])

/-- C5 evaluated at the failing input: a connection presenting a wrong token
produces no application events at all — in particular no `error` frame and
no close with code 1008, contrary to the claim, though also no registry
attach — because `check_websocket_token` raises a plain `Exception` that the
`except HTTPException` handler never catches. -/
theorem bad_token_no_events :
    websocket_proxy_multi_setup "wrong" (some "s3cret")
        { action := some "start", source_ids := some [['1']] } = [] ∧
      check_websocket_token "wrong" (some "s3cret") =
        Except.error (PyExc.generic "Invalid token") :=
  ⟨rfl, rfl⟩

/-- One row of the `statistics` table (models/models.py lines 64-70). -/
structure StatRow where
  proxyid : Int
  statusid : Int
  deriving DecidableEq, Repr

/-- Relational store state visible to the report path. -/
structure DbState where
  proxies : List DbRow
  statistics : List StatRow
  deriving DecidableEq, Repr

/-- Embedding of `save_proxy_report` (ws_proxy.py lines 167-186): look the
proxy up by id; if absent, return failure with the message and leave the
store untouched; otherwise commit one statistics row carrying the status
code verbatim.

Modelled from the spec: the commit goes through `SessionLocal` of
`app.core.database`, which is not present under src/; per the spec (§3 and
§4.1) `insert_report` appends one row and unknown status codes are accepted
and stored verbatim, so the model appends unconditionally once the proxy
exists. -/
def save_proxy_report (db : DbState) (pid code : Int) : (Bool × String) × DbState :=
  match db.proxies.find? (fun r => r.id == pid) with
  | none => ((false, "Proxy with ID " ++ toString pid ++ " does not exist"), db)
  | some _ => ((true, ""), { db with statistics := db.statistics ++ [⟨pid, code⟩] })

/-- The `report_acknowledged` reply frame (ws_proxy.py lines 210-215). -/
structure AckFrame where
  action : String
  proxy_id : Int
  success : Bool
  message : String
  deriving DecidableEq, Repr

/-- The `report_proxy` branch of `handle_incoming` (ws_proxy.py lines
203-215): run `save_proxy_report` and acknowledge with its outcome. -/
def handle_report_proxy (db : DbState) (pid code : Int) : AckFrame × DbState :=
  let r := save_proxy_report db pid code
  ({ action := "report_acknowledged", proxy_id := pid, success := r.1.1,
     message := if r.1.1 then "Report saved successfully" else r.1.2 }, r.2)

/-- C6: reporting a proxy id absent from the proxies table yields a
`report_acknowledged` frame with `success = false` and the exact message
`Proxy with ID <id> does not exist`, and the store — in particular the
statistics table — is unchanged. -/
theorem report_unknown_proxy (db : DbState) (pid code : Int)
    (h : ∀ r ∈ db.proxies, r.id ≠ pid) :
    handle_report_proxy db pid code =
      ({ action := "report_acknowledged", proxy_id := pid, success := false,
         message := "Proxy with ID " ++ toString pid ++ " does not exist" }, db) := by
  have hf : db.proxies.find? (fun r => r.id == pid) = none :=
    List.find?_eq_none.mpr (fun r hr => by simpa using h r hr)
  simp [handle_report_proxy, save_proxy_report, hf]

/-- Row of the proxies table used in report witnesses. -/
def rowR : DbRow :=
  { id := 42, proxy := "r:42", sourceid := some 1, priority := some 10,
    blocked := some false, usage_interval := some 30 }

theorem report_unknown_proxy_witness :
    (∀ r ∈ ([rowR] : List DbRow), r.id ≠ (999999 : Int)) ∧
      handle_report_proxy ⟨[rowR], []⟩ 999999 429 =
        ({ action := "report_acknowledged", proxy_id := 999999, success := false,
           message := "Proxy with ID 999999 does not exist" }, ⟨[rowR], []⟩) := by
  refine ⟨by decide, ?_⟩
  rw [report_unknown_proxy ⟨[rowR], []⟩ 999999 429 (by decide)]
  decide

/-- C9: reporting an existing proxy id with any integer status code — also
codes outside the `statuses` enumeration, which `save_proxy_report` never
consults — is accepted: exactly one statistics row carrying that verbatim
code is appended and the session is acknowledged with `success = true`. -/
theorem report_existing_proxy (db : DbState) (pid code : Int) (r : DbRow)
    (hr : r ∈ db.proxies) (hid : r.id = pid) :
    handle_report_proxy db pid code =
      ({ action := "report_acknowledged", proxy_id := pid, success := true,
         message := "Report saved successfully" },
       { db with statistics := db.statistics ++ [⟨pid, code⟩] }) := by
  have hf : ∃ q, db.proxies.find? (fun x => x.id == pid) = some q := by
    cases hfind : db.proxies.find? (fun x => x.id == pid) with
    | some q => exact ⟨q, rfl⟩
    | none =>
        exfalso
        have := List.find?_eq_none.mp hfind r hr
        simp [hid] at this
  obtain ⟨q, hq⟩ := hf
  simp [handle_report_proxy, save_proxy_report, hq]

theorem report_existing_proxy_witness :
    rowR ∈ ([rowR] : List DbRow) ∧
      handle_report_proxy ⟨[rowR], []⟩ 42 418 =
        ({ action := "report_acknowledged", proxy_id := 42, success := true,
           message := "Report saved successfully" },
         ⟨[rowR], [⟨42, 418⟩]⟩) := by
  refine ⟨by decide, ?_⟩
  rw [report_existing_proxy ⟨[rowR], []⟩ 42 418 rowR (by decide) (by decide)]
  rfl

/-- Outcomes of `Scheduler.get_proxy` (scheduler.py lines 68-102): a popped
proxy, the no-proxies default, or the caught-error default. -/
inductive GetProxyOutcome
  | proxyValue (p : Int)
  | noProxiesAvailable
  | errorRetrieving
  deriving DecidableEq, Repr

/-- Redis `zpopmax`: remove and return a highest-scored member; proxies are
modelled by their scores. -/
def popMax : List Int → Option (Int × List Int)
  | [] => none
  | p :: ps =>
      match popMax ps with
      | none => some (p, [])
      | some (m, rest) => if m > p then some (m, p :: rest) else some (p, ps)

/-- Embedding of `Scheduler.get_proxy` under the `limit_recursion(10)`
decorator (scheduler.py lines 14-25 and 68-102), with an explicit fuel
parameter so that non-termination would show up as `none`.  `depth` is the
decorator's shared counter as observed at wrapper entry; the wrapper raises
`RecursionError` when it equals 10, and the body catches any exception from
the nested retry (`except Exception`, line 97) and returns the error
default.  `db k` is the batch the store returns on the k-th
`send_batch_to_redis` call; an empty batch makes the body return the
no-proxies default without recursing. -/
def get_proxy_fuel (db : Nat → List Int) :
    Nat → Nat → Nat → List Int → Option (Except String (GetProxyOutcome × List Int × Nat))
  | 0, _, _, _ => none
  | fuel + 1, depth, dbIdx, redis =>
      if depth = 10 then some (Except.error "Max recursion depth reached.")
      else
        match popMax redis with
        | some (p, redis2) => some (Except.ok (GetProxyOutcome.proxyValue p, redis2, dbIdx))
        | none =>
            let batch := db dbIdx
            if batch.isEmpty then
              some (Except.ok (GetProxyOutcome.noProxiesAvailable, redis, dbIdx + 1))
            else
              match get_proxy_fuel db fuel (depth + 1) (dbIdx + 1) (redis ++ batch) with
              | none => none
              | some (Except.error _) =>
                  some (Except.ok (GetProxyOutcome.errorRetrieving, redis ++ batch, dbIdx + 1))
              | some (Except.ok r) => some (Except.ok r)

theorem get_proxy_fuel_total (db : Nat → List Int) :
    ∀ fuel depth dbIdx redis, 11 ≤ fuel + depth → depth ≤ 10 →
      (get_proxy_fuel db fuel depth dbIdx redis).isSome = true := by
  intro fuel
  induction fuel with
  | zero => intro depth dbIdx redis h1 h2; omega
  | succ n ih =>
      intro depth dbIdx redis h1 h2
      by_cases hd : depth = 10
      · simp [get_proxy_fuel, hd]
      · cases hpop : popMax redis with
        | some pr =>
            obtain ⟨p, r2⟩ := pr
            simp [get_proxy_fuel, hd, hpop]
        | none =>
            by_cases hb : (db dbIdx).isEmpty
            · simp [get_proxy_fuel, hd, hpop, hb]
            · have hrec := ih (depth + 1) (dbIdx + 1) (redis ++ db dbIdx)
                (by omega) (by omega)
              cases hx : get_proxy_fuel db n (depth + 1) (dbIdx + 1) (redis ++ db dbIdx) with
              | none => rw [hx] at hrec; simp at hrec
              | some r =>
                  cases r with
                  | error e => simp [get_proxy_fuel, hd, hpop, hb, hx]
                  | ok v => simp [get_proxy_fuel, hd, hpop, hb, hx]

/-- C8: the emptiness-then-refill recursion of `get_proxy` is bounded by the
`limit_recursion(10)` decorator: fuel 11 always suffices, for any store
behaviour and any cache state (the call chain never nests beyond the outer
call plus ten retries); the retry entered at depth 10 raises
`RecursionError("Max recursion depth reached.")` rather than looping; and
with a store that never returns rows the call returns the no-proxies default
immediately. -/
theorem get_proxy_recursion_bounded (db : Nat → List Int) (dbIdx : Nat)
    (redis : List Int) (fuel : Nat) :
    (get_proxy_fuel db 11 0 dbIdx redis).isSome = true ∧
      get_proxy_fuel db (fuel + 1) 10 dbIdx redis =
        some (Except.error "Max recursion depth reached.") ∧
      get_proxy_fuel (fun _ => []) 11 0 dbIdx [] =
        some (Except.ok (GetProxyOutcome.noProxiesAvailable, [], dbIdx + 1)) := by
  refine ⟨get_proxy_fuel_total db 11 0 dbIdx redis (by omega) (by omega), ?_, ?_⟩
  · simp [get_proxy_fuel]
  · simp [get_proxy_fuel, popMax]

end ProxyCare
